import Mathlib

/-!
# Verification of the reth beacon consensus engine core

Shallow embedding of the consensus engine
(`src/crates/consensus/beacon/src/engine/mod.rs`), the payload builder
service (`src/crates/payload/builder/src/service.rs`) and the payload-id
derivation (`src/crates/payload/builder/src/payload.rs`).

Tree and provider operations the engine only *reads* are modelled as an
oracle record of pure functions (`Blockchain`); operations that *mutate*
shared state (tree writes, sync-controller commands) are recorded in an
explicit action trace, so that theorems can talk about which mutations a
code path performs and in which order.
-/

namespace RethVerify

namespace Engine

/-- 32-byte block hash, modelled abstractly. The all-zero hash is `0`. -/
abbrev B256 := Nat

/-- `B256::ZERO`: the reserved "unset" hash. -/
def zeroHash : B256 := 0

/-- An (unsealed) block header; only the fields the engine inspects. -/
structure Header where
  parentHash : B256
  number : Nat
  timestamp : Nat
  difficulty : Nat
deriving DecidableEq, Repr

/-- A sealed header: a header together with its own hash. -/
structure SealedHeader where
  hash : B256
  header : Header
deriving DecidableEq, Repr

/-- A sealed block; the engine only inspects its hash and header fields. -/
structure SealedBlock where
  hash : B256
  header : Header
deriving DecidableEq, Repr

def SealedBlock.parentHash (b : SealedBlock) : B256 := b.header.parentHash

def SealedBlock.number (b : SealedBlock) : Nat := b.header.number

/-- `BlockNumHash`: block number paired with block hash. -/
structure BlockNumHash where
  number : Nat
  hash : B256
deriving DecidableEq, Repr

def SealedBlock.numHash (b : SealedBlock) : BlockNumHash := ⟨b.number, b.hash⟩

/-- The forkchoice state triple sent by the consensus layer. -/
structure ForkchoiceState where
  headBlockHash : B256
  safeBlockHash : B256
  finalizedBlockHash : B256
deriving DecidableEq, Repr

/-- Validation-error payloads carried by `PayloadStatusEnum::Invalid`,
as tags instead of strings. -/
inductive ValidationErr where
  | linksToRejectedPayload
  | blockPreMerge
  | invalidBlock
deriving DecidableEq, Repr

/-- `PayloadStatusEnum` from the engine API types. -/
inductive PayloadStatusEnum where
  | valid
  | invalid (err : ValidationErr)
  | syncing
  | accepted
deriving DecidableEq, Repr

/-- `PayloadStatus`: a status plus the optional latest valid hash. -/
structure PayloadStatus where
  status : PayloadStatusEnum
  latestValidHash : Option B256
deriving DecidableEq, Repr

/-- `PayloadStatus::is_valid`. -/
def PayloadStatus.isValid (s : PayloadStatus) : Bool :=
  match s.status with
  | .valid => true
  | _ => false

/-- The `RethError` shapes the engine distinguishes:
fatal canonicalization errors, the pre-merge rejection during
`make_canonical`, the two wrappings of `BlockHashNotFoundInChain`
(`RethError::BlockchainTree(..)` and `RethError::Canonical(..)`),
provider errors and everything else. -/
inductive RethError where
  | canonicalFatal
  | canonicalPreMerge
  | treeBlockHashNotFoundInChain
  | canonicalTreeBlockHashNotFoundInChain
  | provider
  | other
deriving DecidableEq, Repr

/-- `RethError::Canonical(err)` with `err.is_fatal()`. -/
def RethError.isFatalCanonical : RethError → Bool
  | .canonicalFatal => true
  | _ => false

/-- Modelled from the spec: `InsertBlockErrorKind` lives in
`reth_interfaces::blockchain_tree::error`, which is not under `src/`;
the engine only observes `is_invalid_block()` and `is_block_pre_merge()`,
so the kinds are modelled as the three observable classes. -/
inductive InsertBlockErrorKind where
  | blockPreMerge
  | invalidBlockOther
  | internal
deriving DecidableEq, Repr

def InsertBlockErrorKind.isBlockPreMerge : InsertBlockErrorKind → Bool
  | .blockPreMerge => true
  | _ => false

def InsertBlockErrorKind.isInvalidBlock : InsertBlockErrorKind → Bool
  | .blockPreMerge => true
  | .invalidBlockOther => true
  | .internal => false

/-- Modelled from the spec: `BlockStatus` from
`reth_interfaces::blockchain_tree` (not under `src/`), per §4.8 of the
spec: `Valid | Accepted | Disconnected{missing_ancestor}`. -/
inductive BlockStatus where
  | valid
  | accepted
  | disconnected (missingAncestor : BlockNumHash)
deriving DecidableEq, Repr

/-- Modelled from the spec: `InsertPayloadOk` from
`reth_interfaces::blockchain_tree` (not under `src/`):
`Inserted(status) | AlreadySeen(status)`. -/
inductive InsertPayloadOk where
  | inserted (s : BlockStatus)
  | alreadySeen (s : BlockStatus)
deriving DecidableEq, Repr

/-- `CanonicalOutcome` of `make_canonical`. -/
inductive CanonicalOutcome where
  | alreadyCanonical (header : SealedHeader)
  | committed (head : SealedHeader)
deriving DecidableEq, Repr

/-- `CanonicalOutcome::into_header`. -/
def CanonicalOutcome.intoHeader : CanonicalOutcome → SealedHeader
  | .alreadyCanonical h => h
  | .committed h => h

/-- The read side of the blockchain tree / provider, as an oracle of pure
functions. Each field is one method of the `BT` bound of
`BeaconConsensusEngine` that the embedded code calls. -/
structure Blockchain where
  /-- `BlockchainTreeViewer::header_by_hash`: header in the tree (side
  chains included). -/
  headerByHash : B256 → Option Header
  /-- `HeaderProvider::header(&hash)`: canonical/database header. -/
  headerOf : B256 → Except RethError (Option Header)
  /-- `BlockchainTreeViewer::find_canonical_ancestor`. -/
  findCanonicalAncestor : B256 → Option B256
  /-- `header_by_hash_or_number(hash.into())`. -/
  headerByHashOrNumber : B256 → Except RethError (Option Header)
  /-- `BlockchainTreeViewer::lowest_buffered_ancestor`. -/
  lowestBufferedAncestor : B256 → Option SealedBlock
  /-- `BlockchainTreeViewer::buffered_header_by_hash`. -/
  bufferedHeaderByHash : B256 → Option SealedHeader
  /-- `BlockIdReader`-side `is_canonical`. -/
  isCanonical : B256 → Except RethError Bool
  /-- `BlockReader::block_number`. -/
  blockNumber : B256 → Except RethError (Option Nat)
  /-- `BlockIdReader::safe_block_hash`. -/
  safeBlockHash : Except RethError (Option B256)
  /-- `BlockIdReader::finalized_block_hash`. -/
  finalizedBlockHash : Except RethError (Option B256)
  /-- `BlockReader::find_block_by_hash(_, BlockSource::Any)`; the engine
  only uses the found block's header fields. -/
  findBlockByHash : B256 → Except RethError (Option Header)
  /-- `header_td_by_number`. -/
  headerTdByNumber : Nat → Except RethError (Option Nat)
  /-- `BlockchainTreeEngine::make_canonical`, as the outcome the (pure
  snapshot of the) tree produces for a hash. -/
  makeCanonical : B256 → Except RethError CanonicalOutcome
  /-- `BlockchainTreeEngine::insert_block_without_senders`. -/
  insertBlock : SealedBlock → Except InsertBlockErrorKind InsertPayloadOk
  /-- `BlockchainTreeEngine::buffer_block_without_senders`. -/
  bufferBlock : SealedBlock → Except InsertBlockErrorKind Unit

/-- The engine-private flags and collaborator observations used by the
embedded code paths: the pipeline-run threshold, `sync.is_pipeline_active`,
`hooks.is_hook_with_db_write_running`, and the two observations the engine
makes of the forkchoice-state tracker
(`forkchoice_state_tracker.is_empty()` and `sync_target_state()`). -/
structure EngineCfg where
  pipelineRunThreshold : Nat
  pipelineActive : Bool
  hookWithDbWriteRunning : Bool
  forkchoiceTrackerEmpty : Bool
  syncTargetState : Option ForkchoiceState
deriving Repr

/-- One mutation performed by the engine on the tree, the sync controller
or the network handle. The engine functions below record every mutation
they perform, in order. -/
inductive Action where
  | makeCanonical (hash : B256)
  | setCanonicalHead (hash : B256)
  | updateStatus (number : Nat)
  | finalizeBlock (number : Nat)
  | setFinalized (hash : B256)
  | setSafe (hash : B256)
  | setPipelineSyncTarget (hash : B256)
  | downloadFullBlock (hash : B256)
  | downloadBlockRange (hash : B256) (count : Nat)
  | insertBlock (hash : B256)
  | bufferBlock (hash : B256)
  | cancelFullBlockRequest (hash : B256)
  | clearBlockDownloadRequests
  | updateSyncState (syncing : Bool)
  | sendNewPayloadAttributes (timestamp : Nat)
deriving DecidableEq, Repr

/-- The engine's mutable state threaded through the embedded functions:
the invalid-headers cache and the trace of mutations performed so far. -/
structure EngineSt where
  invalidHeaders : List (B256 × Header)
  actions : List Action
deriving DecidableEq, Repr

/-- Errors the embedded functions can return to their caller: internal
`RethError`s (forkchoice path) and internal insertion errors
(`BeaconOnNewPayloadError::Internal`, new-payload path). -/
inductive EngErr where
  | reth (e : RethError)
  | newPayloadInternal (k : InsertBlockErrorKind)
deriving DecidableEq, Repr

/-- The engine effect monad: state-passing over `EngineSt` with an error
channel. Unlike `ExceptT`, state written *before* an error is kept — the
Rust code's mutations are not rolled back when a later `?` fails. -/
def EngineM (α : Type) : Type := EngineSt → Except EngErr α × EngineSt

namespace EngineM

def run (m : EngineM α) (st : EngineSt) : Except EngErr α × EngineSt := m st

protected def pure (a : α) : EngineM α := fun st => (.ok a, st)

protected def bind (m : EngineM α) (f : α → EngineM β) : EngineM β := fun st =>
  match m st with
  | (.ok a, st') => f a st'
  | (.error e, st') => (.error e, st')

instance : Monad EngineM where
  pure := EngineM.pure
  bind := EngineM.bind

/-- Raise an error (Rust `return Err(..)` / `?` on an `Err`). -/
def throwE (e : EngErr) : EngineM α := fun st => (.error e, st)

/-- Record one performed mutation. -/
def emit (a : Action) : EngineM Unit := fun st =>
  (.ok (), { st with actions := st.actions ++ [a] })

/-- Rust `let _ = fallible_call();`: run, keep all state changes, drop
the result and any error. -/
def tryIgnore (m : EngineM α) : EngineM Unit := fun st =>
  match m st with
  | (.ok _, st') => (.ok (), st')
  | (.error _, st') => (.ok (), st')

end EngineM

open EngineM

/-- Lookup in the invalid-headers cache (an association list standing in
for the LRU map; capacity/recency do not matter to the claims). -/
def cacheGet (cache : List (B256 × Header)) (hash : B256) : Option Header :=
  (cache.find? (fun p => p.1 = hash)).map (·.2)

/-- Modelled from the spec: `InvalidHeaderCache::get`
(`engine/invalid_headers.rs` is not under `src/`); per §4.3 the cache maps
a block hash to the stored header record. -/
def getInvalidHeader (hash : B256) : EngineM (Option Header) := fun st =>
  (.ok (cacheGet st.invalidHeaders hash), st)

/-- Modelled from the spec: `InvalidHeaderCache::insert_with_invalid_ancestor`
(`engine/invalid_headers.rs` is not under `src/`); stores the given
(ancestor) header under `headHash`. -/
def insertWithInvalidAncestor (headHash : B256) (header : Header) : EngineM Unit := fun st =>
  (.ok (), { st with invalidHeaders := (headHash, header) :: st.invalidHeaders })

/-- Modelled from the spec: `InvalidHeaderCache::insert`
(`engine/invalid_headers.rs` is not under `src/`); stores a sealed header
under its own hash. -/
def insertInvalidHeader (hash : B256) (header : Header) : EngineM Unit := fun st =>
  (.ok (), { st with invalidHeaders := (hash, header) :: st.invalidHeaders })

/-- Modelled from the spec: the reply type of `forkchoice_updated`
(`OnForkChoiceUpdated`, `engine/message.rs` is not under `src/`). Per
§4.1.1/§7 the reply is either the dedicated `InvalidForkchoiceState`
error, the dedicated `InvalidPayloadAttributes` error, or a payload
status optionally carrying a pending payload-build id. -/
inductive OnForkChoiceUpdated where
  | invalidState
  | invalidPayloadAttributes
  | updated (status : PayloadStatus) (pendingPayloadId : Bool)
deriving DecidableEq, Repr

/-- `OnForkChoiceUpdated::syncing()`. -/
def OnForkChoiceUpdated.syncing : OnForkChoiceUpdated :=
  .updated ⟨.syncing, none⟩ false

/-- `OnForkChoiceUpdated::valid(status)`. -/
def OnForkChoiceUpdated.valid (status : PayloadStatus) : OnForkChoiceUpdated :=
  .updated status false

/-- `OnForkChoiceUpdated::with_invalid(status)`. -/
def OnForkChoiceUpdated.withInvalid (status : PayloadStatus) : OnForkChoiceUpdated :=
  .updated status false

/-- The payload attributes as far as the forkchoice path inspects them:
only the timestamp is read by the engine; the rest is forwarded opaquely
to the payload builder. -/
structure PayloadAttrsE where
  timestamp : Nat
deriving DecidableEq, Repr

/-- `lowest_buffered_ancestor_or`: the parent hash of the lowest buffered
ancestor of `hash`, or `hash` itself when nothing relevant is buffered. -/
def lowestBufferedAncestorOr (bc : Blockchain) (hash : B256) : B256 :=
  match bc.lowestBufferedAncestor hash with
  | some block => block.parentHash
  | none => hash

/-- `latest_valid_hash_for_invalid_payload`. -/
def latestValidHashForInvalidPayload (bc : Blockchain) (parentHash : B256)
    (insertErr : Option InsertBlockErrorKind) : Option B256 :=
  if (insertErr.map (·.isBlockPreMerge)).getD false then
    some zeroHash
  else if (bc.headerByHash parentHash).isSome then
    some parentHash
  else
    match bc.findCanonicalAncestor parentHash with
    | none => none
    | some ancestorHash =>
      match (bc.headerOf ancestorHash).toOption.join with
      | none => none
      | some parentHeader =>
        if parentHeader.difficulty ≠ 0 then some zeroHash else some ancestorHash

/-- `prepare_invalid_response`. -/
def prepareInvalidResponse (bc : Blockchain) (parentHash : B256) : PayloadStatus :=
  let latestValid :=
    match bc.headerByHashOrNumber parentHash with
    | .ok (some parent) => if parent.difficulty ≠ 0 then zeroHash else parentHash
    | _ => parentHash
  ⟨.invalid .linksToRejectedPayload, some latestValid⟩

/-- `check_invalid_ancestor_with_head`. -/
def checkInvalidAncestorWithHead (bc : Blockchain) (check head : B256) :
    EngineM (Option PayloadStatus) := do
  match ← getInvalidHeader check with
  | none => pure none
  | some header => do
    let status := prepareInvalidResponse bc header.parentHash
    insertWithInvalidAncestor head header
    pure (some status)

/-- `check_invalid_ancestor`. -/
def checkInvalidAncestor (bc : Blockchain) (head : B256) :
    EngineM (Option PayloadStatus) := do
  match ← getInvalidHeader head with
  | none => pure none
  | some header => pure (some (prepareInvalidResponse bc header.parentHash))

/-- `exceeds_pipeline_run_threshold`. -/
def exceedsPipelineRunThreshold (eng : EngineCfg) (localTip block : Nat) : Bool :=
  decide (block > localTip) && decide (block - localTip > eng.pipelineRunThreshold)

/-- `can_pipeline_sync_to_finalized`. -/
def canPipelineSyncToFinalized (bc : Blockchain) (eng : EngineCfg)
    (canonicalTipNum targetBlockNumber : Nat)
    (downloadedBlock : Option BlockNumHash) : Option B256 :=
  let syncTargetState := eng.syncTargetState
  let exceeds0 := exceedsPipelineRunThreshold eng canonicalTipNum targetBlockNumber
  let exceeds1 :=
    match syncTargetState.bind (fun s => bc.bufferedHeaderByHash s.finalizedBlockHash) with
    | some bufferedFinalized =>
      exceedsPipelineRunThreshold eng canonicalTipNum bufferedFinalized.header.number
    | none => exceeds0
  let exceeds2 :=
    match downloadedBlock, syncTargetState with
    | some downloaded, some state =>
      if downloaded.hash = state.finalizedBlockHash then
        exceedsPipelineRunThreshold eng canonicalTipNum downloaded.number
      else exceeds1
    | _, _ => exceeds1
  if exceeds2 then
    match syncTargetState with
    | some state =>
      match bc.headerByHashOrNumber state.finalizedBlockHash with
      | .error _ => none
      | .ok none => some state.finalizedBlockHash
      | .ok (some _) => none
    | none => none
  else none

/-- The block number the gap is actually measured against inside
`can_pipeline_sync_to_finalized`: the requested target number, overridden
by the tracked finalized block's number when that block is buffered
(lines 398–407), and by the downloaded block's number when the downloaded
block is the tracked finalized block (lines 409–417). -/
def effectiveTargetNumber (bc : Blockchain) (eng : EngineCfg)
    (targetBlockNumber : Nat) (downloadedBlock : Option BlockNumHash) : Nat :=
  match eng.syncTargetState with
  | none => targetBlockNumber
  | some fs =>
    let buffered :=
      match bc.bufferedHeaderByHash fs.finalizedBlockHash with
      | some bufferedFinalized => bufferedFinalized.header.number
      | none => targetBlockNumber
    match downloadedBlock with
    | some downloaded =>
      if downloaded.hash = fs.finalizedBlockHash then downloaded.number
      else buffered
    | none => buffered

/-- `distance_from_local_tip`. -/
def distanceFromLocalTip (localTip block : Nat) : Option Nat :=
  if block > localTip then some (block - localTip) else none

/-- `update_head`. -/
def updateHead (bc : Blockchain) (head : SealedHeader) : EngineM Unit := do
  emit (.setCanonicalHead head.hash)
  match bc.headerTdByNumber head.header.number with
  | .error e => throwE (.reth e)
  | .ok none => throwE (.reth .provider)
  | .ok (some _) => emit (.updateStatus head.header.number)

/-- `update_safe_block`. -/
def updateSafeBlock (bc : Blockchain) (safeBlockHash : B256) : EngineM Unit := do
  if safeBlockHash = zeroHash then pure ()
  else
    match bc.safeBlockHash with
    | .error e => throwE (.reth e)
    | .ok current =>
      if current = some safeBlockHash then pure ()
      else
        match bc.findBlockByHash safeBlockHash with
        | .error e => throwE (.reth e)
        | .ok none => throwE (.reth .provider)
        | .ok (some _) => emit (.setSafe safeBlockHash)

/-- `update_finalized_block`. -/
def updateFinalizedBlock (bc : Blockchain) (finalizedBlockHash : B256) : EngineM Unit := do
  if finalizedBlockHash = zeroHash then pure ()
  else
    match bc.finalizedBlockHash with
    | .error e => throwE (.reth e)
    | .ok current =>
      if current = some finalizedBlockHash then pure ()
      else
        match bc.findBlockByHash finalizedBlockHash with
        | .error e => throwE (.reth e)
        | .ok none => throwE (.reth .provider)
        | .ok (some finalized) => do
          emit (.finalizeBlock finalized.number)
          emit (.setFinalized finalizedBlockHash)

/-- `update_canon_chain`. -/
def updateCanonChain (bc : Blockchain) (head : SealedHeader)
    (update : ForkchoiceState) : EngineM Unit := do
  updateHead bc head
  updateFinalizedBlock bc update.finalizedBlockHash
  updateSafeBlock bc update.safeBlockHash

/-- `ensure_consistent_state`. -/
def ensureConsistentState (bc : Blockchain) (state : ForkchoiceState) :
    EngineM (Option OnForkChoiceUpdated) := do
  let finalizedInconsistent ←
    if state.finalizedBlockHash = zeroHash then pure false
    else
      match bc.isCanonical state.finalizedBlockHash with
      | .error e => throwE (.reth e)
      | .ok canonical => pure (!canonical)
  if finalizedInconsistent then pure (some .invalidState)
  else do
    updateFinalizedBlock bc state.finalizedBlockHash
    let safeInconsistent ←
      if state.safeBlockHash = zeroHash then pure false
      else
        match bc.isCanonical state.safeBlockHash with
        | .error e => throwE (.reth e)
        | .ok canonical => pure (!canonical)
    if safeInconsistent then pure (some .invalidState)
    else do
      updateSafeBlock bc state.safeBlockHash
      pure none

/-- `ensure_consistent_state_with_status`. -/
def ensureConsistentStateWithStatus (bc : Blockchain) (state : ForkchoiceState)
    (status : PayloadStatus) : EngineM (Option OnForkChoiceUpdated) :=
  if status.isValid then ensureConsistentState bc state
  else pure none

/-- `on_failed_canonical_forkchoice_update`. -/
def onFailedCanonicalForkchoiceUpdate (bc : Blockchain) (eng : EngineCfg)
    (state : ForkchoiceState) (error : RethError) : EngineM PayloadStatus := do
  match ← checkInvalidAncestor bc state.headBlockHash with
  | some invalidAncestor => pure invalidAncestor
  | none =>
    match error with
    | .canonicalPreMerge => pure ⟨.invalid .blockPreMerge, some zeroHash⟩
    | _ => do
      let target :=
        if eng.forkchoiceTrackerEmpty then
          let t :=
            if state.safeBlockHash ≠ zeroHash ∧
                (bc.blockNumber state.safeBlockHash).toOption.join = none then
              state.safeBlockHash
            else state.headBlockHash
          lowestBufferedAncestorOr bc t
        else
          lowestBufferedAncestorOr bc state.headBlockHash
      if eng.pipelineRunThreshold = 0 then emit (.setPipelineSyncTarget target)
      else emit (.downloadFullBlock target)
      pure ⟨.syncing, none⟩

/-- `process_payload_attributes`. -/
def processPayloadAttributes (attrs : PayloadAttrsE) (head : Header)
    (state : ForkchoiceState) : EngineM OnForkChoiceUpdated := do
  if attrs.timestamp ≤ head.timestamp then pure .invalidPayloadAttributes
  else do
    emit (.sendNewPayloadAttributes attrs.timestamp)
    pure (.updated ⟨.valid, some state.headBlockHash⟩ true)

/-- The tail of `forkchoice_updated` (lines 722–730): run the status-gated
consistency check; on pass, return the original status as a valid reply. -/
def fcuWithStatusFinish (bc : Blockchain) (state : ForkchoiceState)
    (status : PayloadStatus) : EngineM OnForkChoiceUpdated := do
  match ← ensureConsistentStateWithStatus bc state status with
  | some invalidResponse => pure invalidResponse
  | none => pure (.valid status)

/-- `forkchoice_updated`. -/
def forkchoiceUpdated (bc : Blockchain) (eng : EngineCfg)
    (state : ForkchoiceState) (attrs : Option PayloadAttrsE) :
    EngineM OnForkChoiceUpdated := do
  if state.headBlockHash = zeroHash then pure .invalidState
  else do
    match ← checkInvalidAncestor bc (lowestBufferedAncestorOr bc state.headBlockHash) with
    | some status => pure (.withInvalid status)
    | none =>
      if eng.pipelineActive then pure .syncing
      else if eng.hookWithDbWriteRunning then pure .syncing
      else do
        emit (.makeCanonical state.headBlockHash)
        match bc.makeCanonical state.headBlockHash with
        | .ok outcome => do
          (match outcome with
           | .alreadyCanonical _ => pure ()
           | .committed head => tryIgnore (updateHead bc head))
          match attrs with
          | some a => do
            match ← ensureConsistentState bc state with
            | some invalidResponse => pure invalidResponse
            | none => processPayloadAttributes a outcome.intoHeader.header state
          | none => fcuWithStatusFinish bc state ⟨.valid, some state.headBlockHash⟩
        | .error error =>
          if error.isFatalCanonical then throwE (.reth error)
          else do
            let status ← onFailedCanonicalForkchoiceUpdate bc eng state error
            fcuWithStatusFinish bc state status

/-- Modelled from the spec: `ForkchoiceStateHash`
(`engine/forkchoice.rs` is not under `src/`): which of the three tracked
hashes a given hash matches, head checked first. -/
inductive ForkchoiceStateHash where
  | head (hash : B256)
  | safe (hash : B256)
  | finalized (hash : B256)
deriving DecidableEq, Repr

/-- Modelled from the spec: `ForkchoiceStateHash::find`. -/
def ForkchoiceStateHash.find (state : ForkchoiceState) (hash : B256) :
    Option ForkchoiceStateHash :=
  if state.headBlockHash = hash then some (.head hash)
  else if state.safeBlockHash = hash then some (.safe hash)
  else if state.finalizedBlockHash = hash then some (.finalized hash)
  else none

def ForkchoiceStateHash.isHead : ForkchoiceStateHash → Bool
  | .head _ => true
  | _ => false

def ForkchoiceStateHash.hash : ForkchoiceStateHash → B256
  | .head h => h
  | .safe h => h
  | .finalized h => h

/-- `try_make_sync_target_canonical`. -/
def tryMakeSyncTargetCanonical (bc : Blockchain) (eng : EngineCfg)
    (inserted : BlockNumHash) : EngineM Unit := do
  match eng.syncTargetState with
  | none => pure ()
  | some target => do
    emit (.makeCanonical target.headBlockHash)
    match bc.makeCanonical target.headBlockHash with
    | .ok outcome => do
      let newHead := outcome.intoHeader
      tryIgnore (updateCanonChain bc newHead target)
      emit (.updateSyncState false)
      emit (.clearBlockDownloadRequests)
    | .error err =>
      if err = .canonicalTreeBlockHashNotFoundInChain then
        match (ForkchoiceStateHash.find target inserted.hash).filter
            (fun h => !h.isHead) with
        | some targetHash => emit (.makeCanonical targetHash.hash)
        | none => pure ()
      else pure ()

/-- `try_buffer_payload`. -/
def tryBufferPayload (bc : Blockchain) (block : SealedBlock) :
    EngineM (Except InsertBlockErrorKind PayloadStatus) := do
  emit (.bufferBlock block.hash)
  match bc.bufferBlock block with
  | .error kind => pure (.error kind)
  | .ok _ => pure (.ok ⟨.syncing, none⟩)

/-- `try_insert_new_payload`. -/
def tryInsertNewPayload (bc : Blockchain) (block : SealedBlock) :
    EngineM (Except InsertBlockErrorKind PayloadStatus) := do
  emit (.insertBlock block.hash)
  match bc.insertBlock block with
  | .error kind => pure (.error kind)
  | .ok status =>
    match status with
    | .inserted .valid => pure (.ok ⟨.valid, some block.hash⟩)
    | .inserted .accepted => pure (.ok ⟨.accepted, none⟩)
    | .inserted (.disconnected _) | .alreadySeen (.disconnected _) => do
      match ← checkInvalidAncestorWithHead bc block.parentHash block.hash with
      | some status => pure (.ok status)
      | none => pure (.ok ⟨.syncing, none⟩)
    | .alreadySeen .valid => pure (.ok ⟨.valid, some block.hash⟩)
    | .alreadySeen .accepted => pure (.ok ⟨.accepted, none⟩)

/-- `map_insert_error`. -/
def mapInsertError (bc : Blockchain) (block : SealedBlock)
    (kind : InsertBlockErrorKind) : EngineM PayloadStatus := do
  if kind.isInvalidBlock then do
    insertInvalidHeader block.hash block.header
    let latestValid := latestValidHashForInvalidPayload bc block.parentHash (some kind)
    pure ⟨.invalid .invalidBlock, latestValid⟩
  else throwE (.newPayloadInternal kind)

/-- A blockchain oracle that knows nothing; concrete counterexamples and
witnesses override individual fields. -/
def emptyChain : Blockchain where
  headerByHash := fun _ => none
  headerOf := fun _ => .ok none
  findCanonicalAncestor := fun _ => none
  headerByHashOrNumber := fun _ => .ok none
  lowestBufferedAncestor := fun _ => none
  bufferedHeaderByHash := fun _ => none
  isCanonical := fun _ => .ok false
  blockNumber := fun _ => .ok none
  safeBlockHash := .ok none
  finalizedBlockHash := .ok none
  findBlockByHash := fun _ => .ok none
  headerTdByNumber := fun _ => .ok none
  makeCanonical := fun _ => .error .other
  insertBlock := fun _ => .error .internal
  bufferBlock := fun _ => .ok ()

/-- An idle engine with the default threshold of one epoch (32). -/
def idleCfg : EngineCfg where
  pipelineRunThreshold := 32
  pipelineActive := false
  hookWithDbWriteRunning := false
  forkchoiceTrackerEmpty := false
  syncTargetState := none

/-- Empty invalid-headers cache, empty action trace. -/
def emptySt : EngineSt := ⟨[], []⟩

/-- Whether a trace contains a `set_pipeline_sync_target` call, i.e.
whether the code path armed the pipeline. -/
def armsPipeline (l : List Action) : Bool :=
  l.any fun a =>
    match a with
    | .setPipelineSyncTarget _ => true
    | _ => false

/-- The hash `on_new_payload` checks against the invalid-headers cache:
the parent of the lowest buffered ancestor, or the block's own parent
hash when nothing relevant is buffered (lines 1089–1092). -/
def newPayloadCheckHash (bc : Blockchain) (block : SealedBlock) : B256 :=
  let lowestBufferedAncestor := lowestBufferedAncestorOr bc block.hash
  if lowestBufferedAncestor = block.hash then block.parentHash
  else lowestBufferedAncestor

/-- `on_new_payload`, from the point where the well-formed sealed block
has been reconstructed from the payload (lines 1086–1136). -/
def onNewPayloadWithBlock (bc : Blockchain) (eng : EngineCfg)
    (block : SealedBlock) : EngineM PayloadStatus := do
  match ← checkInvalidAncestorWithHead bc (newPayloadCheckHash bc block) block.hash with
  | some status => pure status
  | none => do
    let res ←
      if !eng.pipelineActive && !eng.hookWithDbWriteRunning then
        tryInsertNewPayload bc block
      else
        tryBufferPayload bc block
    match res with
    | .ok status => do
      if status.isValid then do
        (match eng.syncTargetState with
         | some target =>
           if block.hash = target.headBlockHash then
             tryMakeSyncTargetCanonical bc eng block.numHash
           else pure ()
         | none => pure ())
        emit (.cancelFullBlockRequest block.hash)
      else pure ()
      pure status
    | .error kind => mapInsertError bc block kind

end Engine

namespace Payload

/-! ## Payload-id derivation (`src/crates/payload/builder/src/payload.rs`)

Here hashes are byte strings, because the claim is byte-exact. `Bytes` is
a list of byte values; the SHA-256 compression below is the standard
FIPS 180-4 algorithm (the `sha2` crate used by the source), executable so
that concrete digests can be checked. -/

/-- A byte string; every element is `< 256` wherever the functions below
produce one. -/
abbrev Bytes := List Nat

/-- Truncate to 32 bits. -/
def w32 (n : Nat) : Nat := n % 4294967296

/-- 32-bit rotate right by `k`. -/
def rotr (k x : Nat) : Nat := w32 ((x >>> k) ||| (x <<< (32 - k)))

def shaCh (x y z : Nat) : Nat := (x &&& y) ^^^ ((x ^^^ 4294967295) &&& z)

def shaMaj (x y z : Nat) : Nat := (x &&& y) ^^^ (x &&& z) ^^^ (y &&& z)

def bsig0 (x : Nat) : Nat := rotr 2 x ^^^ rotr 13 x ^^^ rotr 22 x

def bsig1 (x : Nat) : Nat := rotr 6 x ^^^ rotr 11 x ^^^ rotr 25 x

def ssig0 (x : Nat) : Nat := rotr 7 x ^^^ rotr 18 x ^^^ (x >>> 3)

def ssig1 (x : Nat) : Nat := rotr 17 x ^^^ rotr 19 x ^^^ (x >>> 10)

/-- The 64 SHA-256 round constants of FIPS 180-4, in decimal. -/
def shaK : List Nat :=
  [1116352408, 1899447441, 3049323471, 3921009573, 961987163,
   1508970993, 2453635748, 2870763221, 3624381080, 310598401,
   607225278, 1426881987, 1925078388, 2162078206, 2614888103,
   3248222580, 3835390401, 4022224774, 264347078, 604807628,
   770255983, 1249150122, 1555081692, 1996064986, 2554220882,
   2821834349, 2952996808, 3210313671, 3336571891, 3584528711,
   113926993, 338241895, 666307205, 773529912, 1294757372,
   1396182291, 1695183700, 1986661051, 2177026350, 2456956037,
   2730485921, 2820302411, 3259730800, 3345764771, 3516065817,
   3600352804, 4094571909, 275423344, 430227734, 506948616,
   659060556, 883997877, 958139571, 1322822218, 1537002063,
   1747873779, 1955562222, 2024104815, 2227730452, 2361852424,
   2428436474, 2756734187, 3204031479, 3329325298]

/-- The SHA-256 initial hash value of FIPS 180-4, in decimal. -/
def shaH0 : List Nat :=
  [1779033703, 3144134277, 1013904242, 2773480762,
   1359893119, 2600822924, 528734635, 1541459225]

/-- Big-endian 32-bit words of a 64-byte block. -/
def wordsOfBlock : Bytes → List Nat
  | b0 :: b1 :: b2 :: b3 :: rest =>
    (((b0 * 256 + b1) * 256 + b2) * 256 + b3) :: wordsOfBlock rest
  | _ => []

/-- Extend a 16-word schedule by `t` further words. -/
def extendSchedule (ws : List Nat) : Nat → List Nat
  | 0 => ws
  | t + 1 =>
    let n := ws.length
    let w := w32 (ssig1 (ws.getD (n - 2) 0) + ws.getD (n - 7) 0 +
      ssig0 (ws.getD (n - 15) 0) + ws.getD (n - 16) 0)
    extendSchedule (ws ++ [w]) t

/-- One compression round; the state is the eight working variables. -/
def compressWord (h : List Nat) (kw : Nat × Nat) : List Nat :=
  let a := h.getD 0 0
  let b := h.getD 1 0
  let c := h.getD 2 0
  let d := h.getD 3 0
  let e := h.getD 4 0
  let f := h.getD 5 0
  let g := h.getD 6 0
  let hh := h.getD 7 0
  let t1 := w32 (hh + bsig1 e + shaCh e f g + kw.1 + kw.2)
  let t2 := w32 (bsig0 a + shaMaj a b c)
  [w32 (t1 + t2), a, b, c, w32 (d + t1), e, f, g]

/-- Compress one 64-byte block into the running hash value. -/
def compressBlock (h : List Nat) (block : Bytes) : List Nat :=
  let ws := extendSchedule (wordsOfBlock block) 48
  let h' := (shaK.zip ws).foldl compressWord h
  (h.zip h').map (fun p => w32 (p.1 + p.2))

/-- Big-endian 8-byte encoding of a `u64` (`to_be_bytes`). -/
def be64 (n : Nat) : Bytes :=
  [n / 2 ^ 56 % 256, n / 2 ^ 48 % 256, n / 2 ^ 40 % 256, n / 2 ^ 32 % 256,
   n / 2 ^ 24 % 256, n / 2 ^ 16 % 256, n / 2 ^ 8 % 256, n % 256]

/-- SHA-256 padding: `0x80`, zeros, then the bit length as 64-bit BE. -/
def padMessage (msg : Bytes) : Bytes :=
  let l := msg.length
  msg ++ [128] ++ List.replicate ((119 - l % 64) % 64) 0 ++ be64 (8 * l)

/-- Split into 64-byte blocks (fuel-indexed for structural recursion). -/
def chunk64 : Nat → Bytes → List Bytes
  | 0, _ => []
  | _, [] => []
  | fuel + 1, l => l.take 64 :: chunk64 fuel (l.drop 64)

/-- SHA-256 of a byte string. -/
def sha256 (msg : Bytes) : Bytes :=
  let padded := padMessage msg
  let hfin := (chunk64 padded.length padded).foldl compressBlock shaH0
  hfin.flatMap (fun w => [w / 2 ^ 24 % 256, w / 2 ^ 16 % 256, w / 2 ^ 8 % 256, w % 256])

/-! ### RLP encoding of withdrawals (`alloy_rlp::Encodable`) -/

/-- Minimal big-endian byte encoding of a natural (empty for `0`). -/
def beBytes (n : Nat) : Bytes :=
  if _h : n = 0 then []
  else beBytes (n / 256) ++ [n % 256]
decreasing_by exact Nat.div_lt_self (Nat.pos_of_ne_zero _h) (by omega)

/-- RLP encoding of an unsigned integer. -/
def rlpNat (n : Nat) : Bytes :=
  if n = 0 then [128]
  else if n < 128 then [n]
  else
    let b := beBytes n
    (128 + b.length) :: b

/-- RLP encoding of a byte string. -/
def rlpBytes (b : Bytes) : Bytes :=
  if b.length = 1 ∧ b.getD 0 0 < 128 then b
  else if b.length < 56 then (128 + b.length) :: b
  else
    let l := beBytes b.length
    (183 + l.length) :: (l ++ b)

/-- Wrap an already-encoded payload as an RLP list. -/
def rlpListHeader (payload : Bytes) : Bytes :=
  if payload.length < 56 then (192 + payload.length) :: payload
  else
    let l := beBytes payload.length
    (247 + l.length) :: (l ++ payload)

/-- A withdrawal as in `reth_rpc_types::engine::payload::Withdrawal`. -/
structure Withdrawal where
  index : Nat
  validatorIndex : Nat
  address : Bytes
  amount : Nat
deriving DecidableEq, Repr

/-- RLP encoding of one withdrawal (derived `RlpEncodable`). -/
def rlpWithdrawal (w : Withdrawal) : Bytes :=
  rlpListHeader (rlpNat w.index ++ rlpNat w.validatorIndex ++
    rlpBytes w.address ++ rlpNat w.amount)

/-- RLP encoding of a withdrawal vector (`Vec<Withdrawal>::encode`). -/
def rlpWithdrawals (ws : List Withdrawal) : Bytes :=
  rlpListHeader ((ws.map rlpWithdrawal).flatten)

/-! ### The attributes and the derivation itself -/

/-- `reth_rpc_types::engine::PayloadAttributes`, the fields `payload_id`
reads. -/
structure PayloadAttributes where
  timestamp : Nat
  prevRandao : Bytes
  suggestedFeeRecipient : Bytes
  withdrawals : Option (List Withdrawal)
  parentBeaconBlockRoot : Option Bytes
deriving DecidableEq, Repr

/-- The streaming `sha2::Sha256` hasher: `update` appends to the input
stream, `finalize` digests the whole stream. -/
structure Sha256Hasher where
  buf : Bytes
deriving DecidableEq, Repr

def Sha256Hasher.new : Sha256Hasher := ⟨[]⟩

def Sha256Hasher.update (h : Sha256Hasher) (b : Bytes) : Sha256Hasher :=
  ⟨h.buf ++ b⟩

def Sha256Hasher.finalize (h : Sha256Hasher) : Bytes := sha256 h.buf

/-- `payload_id` (payload.rs lines 232–249): hash the components in
order, take the first 8 bytes of the digest. -/
def payload_id (parent : Bytes) (attributes : PayloadAttributes) : Bytes :=
  let hasher := Sha256Hasher.new
  let hasher := hasher.update parent
  let hasher := hasher.update (be64 attributes.timestamp)
  let hasher := hasher.update attributes.prevRandao
  let hasher := hasher.update attributes.suggestedFeeRecipient
  let hasher :=
    match attributes.withdrawals with
    | some withdrawals => hasher.update (rlpWithdrawals withdrawals)
    | none => hasher
  let hasher :=
    match attributes.parentBeaconBlockRoot with
    | some root => hasher.update root
    | none => hasher
  hasher.finalize.take 8

/-- The derivation as the spec words it: first 8 bytes of SHA-256 over
`parent_hash || be(timestamp) || prev_randao || fee_recipient ||
rlp(withdrawals)? || parent_beacon_block_root?` — stated as a second
definition to compare against the one translated from the source. -/
def payloadIdSpec (parent : Bytes) (a : PayloadAttributes) : Bytes :=
  (sha256 (parent ++ be64 a.timestamp ++ a.prevRandao ++ a.suggestedFeeRecipient ++
    (match a.withdrawals with
     | some ws => rlpWithdrawals ws
     | none => []) ++
    (match a.parentBeaconBlockRoot with
     | some root => root
     | none => []))).take 8

end Payload

namespace Service

/-! ## Payload builder service (`src/crates/payload/builder/src/service.rs`)

The service state is the `payload_jobs: Vec<(Gen::Job, PayloadId)>`
vector; jobs are abstract (`J`). The commands and the job-polling loop
are embedded one-to-one; generator outcomes, job poll outcomes and
resolve keep-alive decisions are oracle functions supplied per step. -/

/-- An 8-byte payload id. -/
abbrev PayloadId := List Nat

/-- `PayloadBuilderAttributes`, the fields the service reads:
`payload_id()` returns the precomputed `id`, and `parent` is only
logged. -/
structure BuilderAttributes where
  id : PayloadId
  parent : Nat
deriving DecidableEq, Repr

/-- `PayloadBuilderAttributes::payload_id`. -/
def BuilderAttributes.payloadId (a : BuilderAttributes) : PayloadId := a.id

/-- The service state: `payload_jobs`. -/
structure ServiceState (J : Type) where
  payloadJobs : List (J × PayloadId)

/-- `PayloadBuilderService::new` starts with no jobs. -/
def ServiceState.empty {J : Type} : ServiceState J := ⟨[]⟩

/-- `contains_payload`. -/
def containsPayload {J : Type} (s : ServiceState J) (id : PayloadId) : Bool :=
  s.payloadJobs.any (fun p => p.2 = id)

/-- The `BuildNewPayload` command handler (service.rs lines 281–307):
an existing id is returned as-is; otherwise the generator is asked for a
job, which is pushed on success. -/
def buildNewPayload {J : Type} (gen : BuilderAttributes → Except Unit J)
    (s : ServiceState J) (attr : BuilderAttributes) :
    Except Unit PayloadId × ServiceState J :=
  let id := attr.payloadId
  if containsPayload s id then (Except.ok id, s)
  else
    match gen attr with
    | .ok job => (Except.ok id, ⟨s.payloadJobs ++ [(job, id)]⟩)
    | .error e => (Except.error e, s)

/-- `Vec::swap_remove i`: overwrite index `i` with the last element,
then pop the last element. -/
def swapRemove {α : Type} (l : List α) (i : Nat) : List α :=
  match l.getLast? with
  | none => []
  | some last => (l.set i last).dropLast

/-- The job-polling loop of `poll` (service.rs lines 254–273), iterating
indices downward: the job at the index is swap-removed, polled, and
pushed back at the end when still pending (`step` returns the retained
job) or dropped when finished or failed (`step` returns `none`). -/
def pollJobsFrom {J : Type} (step : J → Option J) :
    Nat → List (J × PayloadId) → List (J × PayloadId)
  | 0, jobs => jobs
  | i + 1, jobs =>
    match jobs[i]? with
    | none => pollJobsFrom step i jobs
    | some (job, id) =>
      let rest := swapRemove jobs i
      match step job with
      | some job' => pollJobsFrom step i (rest ++ [(job', id)])
      | none => pollJobsFrom step i rest

/-- One pass of the job-polling loop over all current jobs. -/
def pollJobs {J : Type} (step : J → Option J) (s : ServiceState J) : ServiceState J :=
  ⟨pollJobsFrom step s.payloadJobs.length s.payloadJobs⟩

/-- The `Resolve` command handler (service.rs lines 227–237): the job is
removed (`Vec::remove`, order-preserving) when it asks not to be kept
alive. -/
def resolveStep {J : Type} (keepAlive : J → Bool) (s : ServiceState J)
    (id : PayloadId) : ServiceState J :=
  match s.payloadJobs.findIdx? (fun p => p.2 = id) with
  | none => s
  | some i =>
    match s.payloadJobs[i]? with
    | none => s
    | some (job, _) =>
      if keepAlive job then s else ⟨s.payloadJobs.eraseIdx i⟩

/-- The states the service can be in: started empty, then any
interleaving of job polling, `BuildNewPayload` and `Resolve` commands
(the `BestPayload` and `PayloadAttributes` commands do not change the
job vector). -/
inductive Reachable {J : Type} : ServiceState J → Prop
  | init : Reachable ServiceState.empty
  | build (gen : BuilderAttributes → Except Unit J) (attr : BuilderAttributes)
      {s : ServiceState J} : Reachable s → Reachable (buildNewPayload gen s attr).2
  | poll (step : J → Option J) {s : ServiceState J} :
      Reachable s → Reachable (pollJobs step s)
  | resolve (keepAlive : J → Bool) (id : PayloadId) {s : ServiceState J} :
      Reachable s → Reachable (resolveStep keepAlive s id)

end Service

/-! ## Theorems -/

namespace Engine

@[simp]
theorem run_pure {α : Type} (a : α) (st : EngineSt) :
    (pure a : EngineM α).run st = (.ok a, st) := rfl

@[simp]
theorem run_bind {α β : Type} (m : EngineM α) (f : α → EngineM β) (st : EngineSt) :
    (m >>= f).run st =
      match m.run st with
      | (.ok a, st') => (f a).run st'
      | (.error e, st') => (.error e, st') := rfl

@[simp]
theorem run_throwE {α : Type} (e : EngErr) (st : EngineSt) :
    (EngineM.throwE e : EngineM α).run st = (.error e, st) := rfl

@[simp]
theorem run_emit (a : Action) (st : EngineSt) :
    (EngineM.emit a).run st = (.ok (), { st with actions := st.actions ++ [a] }) := rfl

@[simp]
theorem run_tryIgnore {α : Type} (m : EngineM α) (st : EngineSt) :
    (EngineM.tryIgnore m).run st =
      match m.run st with
      | (.ok _, st') => (.ok (), st')
      | (.error _, st') => (.ok (), st') := rfl

@[simp]
theorem run_getInvalidHeader (h : B256) (st : EngineSt) :
    (getInvalidHeader h).run st = (.ok (cacheGet st.invalidHeaders h), st) := rfl

@[simp]
theorem run_insertWithInvalidAncestor (headHash : B256) (header : Header) (st : EngineSt) :
    (insertWithInvalidAncestor headHash header).run st =
      (.ok (), { st with invalidHeaders := (headHash, header) :: st.invalidHeaders }) := rfl

@[simp]
theorem run_insertInvalidHeader (hash : B256) (header : Header) (st : EngineSt) :
    (insertInvalidHeader hash header).run st =
      (.ok (), { st with invalidHeaders := (hash, header) :: st.invalidHeaders }) := rfl

@[simp]
theorem run_ite {α : Type} (c : Prop) [Decidable c] (m m' : EngineM α) (st : EngineSt) :
    (if c then m else m').run st = if c then m.run st else m'.run st := by
  split <;> rfl

/-- Claim C9: For every `ForkchoiceUpdated` whose head block hash is the
all-zero hash, `forkchoice_updated` replies with the dedicated
invalid-forkchoice-state response, leaving the invalid-headers cache
untouched and performing no mutation at all. -/
theorem fcu_zero_head_invalid_state (bc : Blockchain) (eng : EngineCfg)
    (state : ForkchoiceState) (attrs : Option PayloadAttrsE) (st : EngineSt)
    (hzero : state.headBlockHash = zeroHash) :
    (forkchoiceUpdated bc eng state attrs).run st = (.ok .invalidState, st) := by
  simp [forkchoiceUpdated, hzero]

/-- Witness for C9 at a concrete input. -/
theorem fcu_zero_head_invalid_state_witness :
    (forkchoiceUpdated emptyChain idleCfg ⟨0, 0, 0⟩ none).run emptySt =
      (.ok .invalidState, emptySt) :=
  fcu_zero_head_invalid_state emptyChain idleCfg ⟨0, 0, 0⟩ none emptySt rfl

/-- Claim C6: For every `ForkchoiceUpdated` whose head is non-zero and not
a known-invalid ancestor, if the pipeline is active or a hook with
exclusive DB write access is running, `forkchoice_updated` replies
`Syncing` and returns with the engine state unchanged: no
`make_canonical` call and no other mutation is recorded. -/
theorem fcu_exclusive_access_syncing (bc : Blockchain) (eng : EngineCfg)
    (state : ForkchoiceState) (attrs : Option PayloadAttrsE) (st : EngineSt)
    (hzero : state.headBlockHash ≠ zeroHash)
    (hcache : cacheGet st.invalidHeaders
      (lowestBufferedAncestorOr bc state.headBlockHash) = none)
    (hbusy : eng.pipelineActive = true ∨ eng.hookWithDbWriteRunning = true) :
    (forkchoiceUpdated bc eng state attrs).run st =
      (.ok .syncing, st) := by
  cases hp : eng.pipelineActive with
  | true => simp [forkchoiceUpdated, checkInvalidAncestor, hzero, hcache, hp]
  | false =>
    have hh : eng.hookWithDbWriteRunning = true := by
      rcases hbusy with h | h
      · rw [hp] at h; exact absurd h (by simp)
      · exact h
    simp [forkchoiceUpdated, checkInvalidAncestor, hzero, hcache, hp, hh]

/-- Witness for C6 at a concrete input: head `5`, pipeline running. -/
theorem fcu_exclusive_access_syncing_witness :
    (forkchoiceUpdated emptyChain { idleCfg with pipelineActive := true }
        ⟨5, 0, 0⟩ none).run emptySt = (.ok .syncing, emptySt) :=
  fcu_exclusive_access_syncing emptyChain { idleCfg with pipelineActive := true }
    ⟨5, 0, 0⟩ none emptySt (by decide) (by decide) (Or.inl rfl)

/-- Claim C7: The safe/finalized consistency check runs if and only if the
payload status is `Valid`: with a valid status
`ensure_consistent_state_with_status` behaves exactly as
`ensure_consistent_state`, and with any non-valid status it returns
`None` without touching any state, so the finishing step returns the
original status unchanged. -/
theorem consistency_check_only_when_valid (bc : Blockchain)
    (state : ForkchoiceState) (status : PayloadStatus) (st : EngineSt) :
    (status.isValid = true →
      (ensureConsistentStateWithStatus bc state status).run st =
        (ensureConsistentState bc state).run st) ∧
    (status.isValid = false →
      (ensureConsistentStateWithStatus bc state status).run st = (.ok none, st)) ∧
    (status.isValid = false →
      (fcuWithStatusFinish bc state status).run st =
        (.ok (.valid status), st)) := by
  refine ⟨fun h => ?_, fun h => ?_, fun h => ?_⟩ <;>
    simp [ensureConsistentStateWithStatus, fcuWithStatusFinish, h]

/-- Witness for C7 at a concrete input: status `Syncing` skips the check
even though safe/finalized are non-zero and non-canonical. -/
theorem consistency_check_only_when_valid_witness :
    (ensureConsistentStateWithStatus emptyChain ⟨1, 2, 3⟩
        ⟨.syncing, none⟩).run emptySt = (.ok none, emptySt) :=
  (consistency_check_only_when_valid emptyChain ⟨1, 2, 3⟩ ⟨.syncing, none⟩ emptySt).2.1 rfl

/-- Claim C10: The consistency check is not atomic: when the finalized hash
is non-zero and canonical but the safe hash is non-zero and not
canonical, `ensure_consistent_state` returns the invalid-forkchoice-state
reply only after having already called `finalize_block` and
`set_finalized` on the tree; the failed safe-block check rolls nothing
back. -/
theorem consistency_check_not_atomic (bc : Blockchain)
    (state : ForkchoiceState) (st : EngineSt) (blk : Header)
    (hfin : state.finalizedBlockHash ≠ zeroHash)
    (hfc : bc.isCanonical state.finalizedBlockHash = .ok true)
    (hcur : bc.finalizedBlockHash = .ok none)
    (hfind : bc.findBlockByHash state.finalizedBlockHash = .ok (some blk))
    (hsafe : state.safeBlockHash ≠ zeroHash)
    (hsc : bc.isCanonical state.safeBlockHash = .ok false) :
    (ensureConsistentState bc state).run st =
      (.ok (some .invalidState),
        { st with actions := st.actions ++
            [.finalizeBlock blk.number, .setFinalized state.finalizedBlockHash] }) := by
  simp [ensureConsistentState, updateFinalizedBlock, hfin, hfc, hcur, hfind,
    hsafe, hsc, List.append_assoc]

/-- Witness for C10 at a concrete input: finalized `40` (canonical, at
number `7`), safe `50` (not canonical); `finalize_block 7` and
`set_finalized 40` are performed before the invalid reply. -/
theorem consistency_check_not_atomic_witness :
    (ensureConsistentState
        { emptyChain with
          isCanonical := fun h => .ok (decide (h = 40))
          findBlockByHash := fun h =>
            if h = 40 then .ok (some ⟨39, 7, 0, 0⟩) else .ok none }
        ⟨41, 50, 40⟩).run emptySt =
      (.ok (some .invalidState), ⟨[], [.finalizeBlock 7, .setFinalized 40]⟩) :=
  consistency_check_not_atomic
    { emptyChain with
      isCanonical := fun h => .ok (decide (h = 40))
      findBlockByHash := fun h =>
        if h = 40 then .ok (some ⟨39, 7, 0, 0⟩) else .ok none }
    ⟨41, 50, 40⟩ emptySt ⟨39, 7, 0, 0⟩
    (by decide) rfl rfl rfl (by decide) rfl

/-- Claim C2: `latest_valid_hash_for_invalid_payload`: the zero hash on a
pre-merge rejection; otherwise the parent hash when the parent header is
in the tree (side chains included); otherwise, for the canonical
ancestor (when the provider can read its header), the zero hash when its
difficulty is non-zero and its own hash when zero; `None` when no
canonical ancestor is known. -/
theorem latest_valid_hash_cases (bc : Blockchain) (p : B256)
    (e : Option InsertBlockErrorKind) :
    ((e.map (·.isBlockPreMerge)).getD false = true →
      latestValidHashForInvalidPayload bc p e = some zeroHash) ∧
    ((e.map (·.isBlockPreMerge)).getD false = false →
      (bc.headerByHash p).isSome = true →
      latestValidHashForInvalidPayload bc p e = some p) ∧
    ((e.map (·.isBlockPreMerge)).getD false = false →
      bc.headerByHash p = none →
      ∀ a h, bc.findCanonicalAncestor p = some a → bc.headerOf a = .ok (some h) →
        latestValidHashForInvalidPayload bc p e =
          (if h.difficulty ≠ 0 then some zeroHash else some a)) ∧
    ((e.map (·.isBlockPreMerge)).getD false = false →
      bc.headerByHash p = none →
      bc.findCanonicalAncestor p = none →
      latestValidHashForInvalidPayload bc p e = none) := by
  refine ⟨fun hpre => ?_, fun hpre hsome => ?_, fun hpre hnone a h ha hh => ?_,
    fun hpre hnone ha => ?_⟩ <;>
    simp [latestValidHashForInvalidPayload, Except.toOption, Option.join, *]

/-- Witness for C2 at a concrete input: parent `9` unknown, canonical
ancestor `4` with difficulty `0`. -/
theorem latest_valid_hash_cases_witness :
    latestValidHashForInvalidPayload
        { emptyChain with
          findCanonicalAncestor := fun h => if h = 9 then some 4 else none
          headerOf := fun h =>
            if h = 4 then .ok (some ⟨3, 4, 0, 0⟩) else .ok none }
        9 none = some 4 := by
  have h := (latest_valid_hash_cases
    { emptyChain with
      findCanonicalAncestor := fun h => if h = 9 then some 4 else none
      headerOf := fun h =>
        if h = 4 then .ok (some ⟨3, 4, 0, 0⟩) else .ok none }
    9 none).2.2.1 rfl rfl 4 ⟨3, 4, 0, 0⟩ rfl rfl
  simpa using h

/-- Claim C4, counterexample: The claim "the engine chooses the pipeline
path only when `t > c` and `t - c > pipeline_run_threshold`" is false as
stated: with the tracked finalized block buffered at number `100`,
`can_pipeline_sync_to_finalized` re-measures the gap against the
buffered block and arms the pipeline even though the gap
`t - c = 32 - 0` equals the threshold exactly (so the claim also
predicts the download path here). -/
theorem pipeline_gap_threshold_claim_counterexample :
    (canPipelineSyncToFinalized
        { emptyChain with
          bufferedHeaderByHash := fun h =>
            if h = 80 then some ⟨80, ⟨79, 100, 0, 0⟩⟩ else none }
        { pipelineRunThreshold := 32, pipelineActive := false,
          hookWithDbWriteRunning := false, forkchoiceTrackerEmpty := false,
          syncTargetState := some ⟨100, 90, 80⟩ }
        0 32 none = some 80) ∧
    ¬(0 < 32 ∧ 32 - 0 > 32) := by
  constructor
  · rfl
  · decide

/-- The pipeline decision of `can_pipeline_sync_to_finalized` is exactly
the threshold comparison against the effective target number followed by
the database lookup of the tracked finalized block. -/
theorem canPipelineSync_effective (bc : Blockchain) (eng : EngineCfg)
    (c t : Nat) (d : Option BlockNumHash) :
    canPipelineSyncToFinalized bc eng c t d =
      if exceedsPipelineRunThreshold eng c (effectiveTargetNumber bc eng t d) then
        (match eng.syncTargetState with
         | some state =>
           match bc.headerByHashOrNumber state.finalizedBlockHash with
           | .error _ => none
           | .ok none => some state.finalizedBlockHash
           | .ok (some _) => none
         | none => none)
      else none := by
  cases hst : eng.syncTargetState with
  | none =>
    cases d <;> simp [canPipelineSyncToFinalized, effectiveTargetNumber, hst]
  | some fs =>
    cases hbuf : bc.bufferedHeaderByHash fs.finalizedBlockHash with
    | none =>
      cases d with
      | none => simp [canPipelineSyncToFinalized, effectiveTargetNumber, hst, hbuf]
      | some db =>
        by_cases hdb : db.hash = fs.finalizedBlockHash <;>
          simp [canPipelineSyncToFinalized, effectiveTargetNumber, hst, hbuf, hdb]
    | some buf =>
      cases d with
      | none => simp [canPipelineSyncToFinalized, effectiveTargetNumber, hst, hbuf]
      | some db =>
        by_cases hdb : db.hash = fs.finalizedBlockHash <;>
          simp [canPipelineSyncToFinalized, effectiveTargetNumber, hst, hbuf, hdb]

/-- Claim C4, amended: For every input — override cases included — the
engine chooses the pipeline path only when the effective target number
`n` (the target `t`, or the tracked finalized block's number when that
block is buffered, or the downloaded block's number when the downloaded
block is the tracked finalized block) satisfies `n > c` and
`n - c > pipeline_run_threshold`, with the tracked finalized block
absent from the database; when the effective gap `n - c` equals the
threshold exactly, the download path is chosen; and conversely these
conditions always yield the pipeline path with the tracked finalized
hash as target. -/
theorem can_pipeline_sync_gap_rule (bc : Blockchain) (eng : EngineCfg)
    (c t : Nat) (d : Option BlockNumHash) :
    (∀ h, canPipelineSyncToFinalized bc eng c t d = some h →
      ∃ fs, eng.syncTargetState = some fs ∧ h = fs.finalizedBlockHash ∧
        bc.headerByHashOrNumber fs.finalizedBlockHash = .ok none ∧
        c < effectiveTargetNumber bc eng t d ∧
        eng.pipelineRunThreshold < effectiveTargetNumber bc eng t d - c) ∧
    (effectiveTargetNumber bc eng t d - c = eng.pipelineRunThreshold →
      canPipelineSyncToFinalized bc eng c t d = none) ∧
    (∀ fs, eng.syncTargetState = some fs →
      c < effectiveTargetNumber bc eng t d →
      eng.pipelineRunThreshold < effectiveTargetNumber bc eng t d - c →
      bc.headerByHashOrNumber fs.finalizedBlockHash = .ok none →
      canPipelineSyncToFinalized bc eng c t d = some fs.finalizedBlockHash) := by
  have hex : exceedsPipelineRunThreshold eng c (effectiveTargetNumber bc eng t d) = true ↔
      (c < effectiveTargetNumber bc eng t d ∧
        eng.pipelineRunThreshold < effectiveTargetNumber bc eng t d - c) := by
    simp [exceedsPipelineRunThreshold]
  refine ⟨fun h hsome => ?_, fun heq => ?_, fun fs hst h1 h2 h4 => ?_⟩
  · rw [canPipelineSync_effective] at hsome
    by_cases hb : exceedsPipelineRunThreshold eng c (effectiveTargetNumber bc eng t d) = true
    · rw [if_pos hb] at hsome
      have hct := hex.mp hb
      cases hst : eng.syncTargetState with
      | none => rw [hst] at hsome; simp at hsome
      | some fs =>
        rw [hst] at hsome
        dsimp only at hsome
        cases h4 : bc.headerByHashOrNumber fs.finalizedBlockHash with
        | error e => rw [h4] at hsome; simp at hsome
        | ok o =>
          cases o with
          | none =>
            rw [h4] at hsome
            dsimp only at hsome
            exact ⟨fs, rfl, (Option.some.inj hsome).symm, h4, hct.1, hct.2⟩
          | some hd => rw [h4] at hsome; simp at hsome
    · rw [if_neg hb] at hsome; simp at hsome
  · rw [canPipelineSync_effective]
    have hnb : ¬ exceedsPipelineRunThreshold eng c
        (effectiveTargetNumber bc eng t d) = true := by
      rw [hex]; omega
    rw [if_neg hnb]
  · rw [canPipelineSync_effective, if_pos (hex.mpr ⟨h1, h2⟩), hst]
    simp [h4]

/-- Witness for the amended C4 at a concrete input that exercises the
buffered-finalized override: tip `0`, target `32`, threshold `32`, the
tracked finalized block `80` buffered at number `100` and absent from
the database: the pipeline is armed to `80`. -/
theorem can_pipeline_sync_gap_rule_witness :
    canPipelineSyncToFinalized
        { emptyChain with
          bufferedHeaderByHash := fun h =>
            if h = 80 then some ⟨80, ⟨79, 100, 0, 0⟩⟩ else none }
        { pipelineRunThreshold := 32, pipelineActive := false,
          hookWithDbWriteRunning := false, forkchoiceTrackerEmpty := false,
          syncTargetState := some ⟨100, 90, 80⟩ }
        0 32 none = some 80 :=
  (can_pipeline_sync_gap_rule
    { emptyChain with
      bufferedHeaderByHash := fun h =>
        if h = 80 then some ⟨80, ⟨79, 100, 0, 0⟩⟩ else none }
    { pipelineRunThreshold := 32, pipelineActive := false,
      hookWithDbWriteRunning := false, forkchoiceTrackerEmpty := false,
      syncTargetState := some ⟨100, 90, 80⟩ }
    0 32 none).2.2 ⟨100, 90, 80⟩ rfl (by decide) (by decide) rfl

/-- Claim C5, counterexample: The claim "the engine … arms the pipeline
with the safe block as the sync target" is false as stated: with the
default threshold (32 ≠ 0), first FCU, head canonicalization failed with
the sync-needed error and safe block `7` non-zero and unknown, the
engine replies `Syncing` but requests a *full-block download* of `7`; no
`set_pipeline_sync_target` call appears in the trace. -/
theorem first_fcu_safe_pipeline_claim_counterexample :
    (onFailedCanonicalForkchoiceUpdate emptyChain
        { idleCfg with forkchoiceTrackerEmpty := true }
        ⟨5, 7, 0⟩ .treeBlockHashNotFoundInChain).run emptySt =
      (.ok ⟨.syncing, none⟩, ⟨[], [.downloadFullBlock 7]⟩) ∧
    armsPipeline [.downloadFullBlock 7] = false := by
  exact ⟨rfl, rfl⟩

/-- Claim C5, amended: On the first FCU (empty tracker), with head
canonicalization failed by the non-fatal sync-needed error, head not a
known-invalid ancestor, and a non-zero safe block hash unknown locally
(with no buffered ancestor of it), the engine replies `Syncing` and
targets the *safe block, not the head*: it arms the pipeline with the
safe block when `pipeline_run_threshold = 0` and otherwise requests a
full-block download of the safe block. -/
theorem first_fcu_safe_sync_target (bc : Blockchain) (eng : EngineCfg)
    (state : ForkchoiceState) (st : EngineSt)
    (htracker : eng.forkchoiceTrackerEmpty = true)
    (hcache : cacheGet st.invalidHeaders state.headBlockHash = none)
    (hsafe : state.safeBlockHash ≠ zeroHash)
    (hunknown : (bc.blockNumber state.safeBlockHash).toOption.join = none)
    (hnobuf : bc.lowestBufferedAncestor state.safeBlockHash = none) :
    (onFailedCanonicalForkchoiceUpdate bc eng state
        .treeBlockHashNotFoundInChain).run st =
      (.ok ⟨.syncing, none⟩,
        { st with actions := st.actions ++
            [if eng.pipelineRunThreshold = 0 then
               Action.setPipelineSyncTarget state.safeBlockHash
             else
               Action.downloadFullBlock state.safeBlockHash] }) := by
  by_cases hthr : eng.pipelineRunThreshold = 0 <;>
    simp [onFailedCanonicalForkchoiceUpdate, checkInvalidAncestor,
      lowestBufferedAncestorOr, hcache, htracker, hsafe, hunknown, hnobuf, hthr] <;>
  · have hcond : ∀ (a : Option ℕ),
        (bc.blockNumber state.safeBlockHash).toOption = some a → a = none := by
      intro a ha
      rw [ha] at hunknown
      simpa using hunknown
    simp only [if_pos hcond]
    simp [hnobuf]

/-- Witness for the amended C5 at a concrete input with threshold `0`:
the pipeline is armed to the safe block `7`. -/
theorem first_fcu_safe_sync_target_witness :
    (onFailedCanonicalForkchoiceUpdate emptyChain
        { idleCfg with pipelineRunThreshold := 0, forkchoiceTrackerEmpty := true }
        ⟨5, 7, 0⟩ .treeBlockHashNotFoundInChain).run emptySt =
      (.ok ⟨.syncing, none⟩, ⟨[], [.setPipelineSyncTarget 7]⟩) := by
  simpa using first_fcu_safe_sync_target emptyChain
    { idleCfg with pipelineRunThreshold := 0, forkchoiceTrackerEmpty := true }
    ⟨5, 7, 0⟩ emptySt rfl rfl (by decide) rfl rfl

/-- Claim C3, counterexample: The claim "if the lowest buffered ancestor of
`b`'s hash (or `b` itself) is present in the invalid-headers cache, the
engine replies Invalid … without attempting tree insertion" is false as
stated: block `b` (hash `10`) is itself in the cache, nothing is
buffered, so the code checks only `b`'s *parent* hash `9` — which is not
cached — and proceeds to insert `b` into the tree, replying `Valid`. -/
theorem new_payload_invalid_cache_claim_counterexample :
    cacheGet [(10, (⟨8, 0, 0, 0⟩ : Header))] 10 = some ⟨8, 0, 0, 0⟩ ∧
    (onNewPayloadWithBlock
        { emptyChain with insertBlock := fun _ => .ok (.inserted .valid) }
        idleCfg ⟨10, ⟨9, 1, 0, 0⟩⟩).run ⟨[(10, ⟨8, 0, 0, 0⟩)], []⟩ =
      (.ok ⟨.valid, some 10⟩,
        ⟨[(10, ⟨8, 0, 0, 0⟩)], [.insertBlock 10, .cancelFullBlockRequest 10]⟩) :=
  ⟨rfl, rfl⟩

/-- Claim C3, amended: Let `x` be the parent hash of the lowest buffered
ancestor of `b`'s hash (or `b`'s parent hash when no ancestor of `b` is
buffered). If `x` is present in the invalid-headers cache then
`on_new_payload` replies Invalid with `latest_valid_hash` computed from
the cached header's parent, inserts `b` into the cache tagged with its
invalid ancestor, and performs no tree insertion or buffering. -/
theorem new_payload_invalid_ancestor_check (bc : Blockchain) (eng : EngineCfg)
    (block : SealedBlock) (st : EngineSt) (hdr : Header)
    (hcache : cacheGet st.invalidHeaders (newPayloadCheckHash bc block) = some hdr) :
    (onNewPayloadWithBlock bc eng block).run st =
      (.ok (prepareInvalidResponse bc hdr.parentHash),
        { st with invalidHeaders := (block.hash, hdr) :: st.invalidHeaders }) := by
  simp [onNewPayloadWithBlock, checkInvalidAncestorWithHead, hcache]

/-- Witness for the amended C3 at a concrete input: parent `9` of block
`10` is cached with header `⟨8, 5, 0, 0⟩`; the reply is Invalid with
latest valid hash `8`, and `10` is cached without a tree insertion. -/
theorem new_payload_invalid_ancestor_check_witness :
    (onNewPayloadWithBlock emptyChain idleCfg ⟨10, ⟨9, 1, 0, 0⟩⟩).run
        ⟨[(9, ⟨8, 5, 0, 0⟩)], []⟩ =
      (.ok ⟨.invalid .linksToRejectedPayload, some 8⟩,
        ⟨[(10, ⟨8, 5, 0, 0⟩), (9, ⟨8, 5, 0, 0⟩)], []⟩) := by
  simpa using new_payload_invalid_ancestor_check emptyChain idleCfg
    ⟨10, ⟨9, 1, 0, 0⟩⟩ ⟨[(9, ⟨8, 5, 0, 0⟩)], []⟩ ⟨8, 5, 0, 0⟩ rfl

end Engine

namespace Payload

/-- The streaming SHA-256 digest tracked by the `sha2` API model really
is the one-shot SHA-256 of the accumulated stream. -/
theorem finalize_update (h : Sha256Hasher) (b : Bytes) :
    (h.update b).finalize = sha256 (h.buf ++ b) := rfl

/-- Claim C1: `payload_id` equals the first 8 bytes of SHA-256 over
`parent_hash || be(timestamp) || prev_randao || fee_recipient ||
rlp(withdrawals) (when present) || parent_beacon_block_root (when
present)`, and the derivation is a pure function: identical inputs give
byte-identical ids. -/
theorem payload_id_matches_spec (parent : Bytes) (a : PayloadAttributes) :
    payload_id parent a = payloadIdSpec parent a ∧
    ∀ parent2 a2, parent2 = parent → a2 = a →
      payload_id parent2 a2 = payload_id parent a := by
  constructor
  · cases hw : a.withdrawals <;> cases hb : a.parentBeaconBlockRoot <;>
      simp [payload_id, payloadIdSpec, Sha256Hasher.new, Sha256Hasher.update,
        Sha256Hasher.finalize, hw, hb, List.append_assoc]
  · intro parent2 a2 hp ha
    rw [hp, ha]

/-- Witness for C1 at a concrete input (zero parent hash, timestamp
`0x5`, empty withdrawal list present, no parent beacon root). -/
theorem payload_id_matches_spec_witness :
    payload_id (List.replicate 32 0)
        ⟨5, List.replicate 32 1, List.replicate 20 2, some [], none⟩ =
      payloadIdSpec (List.replicate 32 0)
        ⟨5, List.replicate 32 1, List.replicate 20 2, some [], none⟩ ∧
    payload_id (List.replicate 32 0)
        ⟨5, List.replicate 32 1, List.replicate 20 2, some [], none⟩ =
      payload_id (List.replicate 32 0)
        ⟨5, List.replicate 32 1, List.replicate 20 2, some [], none⟩ :=
  ⟨(payload_id_matches_spec (List.replicate 32 0)
      ⟨5, List.replicate 32 1, List.replicate 20 2, some [], none⟩).1,
   (payload_id_matches_spec (List.replicate 32 0)
      ⟨5, List.replicate 32 1, List.replicate 20 2, some [], none⟩).2
      (List.replicate 32 0)
      ⟨5, List.replicate 32 1, List.replicate 20 2, some [], none⟩ rfl rfl⟩

end Payload

namespace Service

open List

theorem get_cons_eraseIdx_perm {α : Type} :
    ∀ (l : List α) (n : Nat) (x : α), l[n]? = some x → l.Perm (x :: l.eraseIdx n)
  | [], n, x, h => by simp at h
  | a :: t, 0, x, h => by
    rw [List.getElem?_cons_zero] at h
    injection h with h
    subst h
    exact List.Perm.refl _
  | a :: t, n + 1, x, h => by
    rw [List.getElem?_cons_succ] at h
    have ih := get_cons_eraseIdx_perm t n x h
    rw [List.eraseIdx_cons_succ]
    exact (ih.cons a).trans (List.Perm.swap x a _)

theorem swapRemove_perm_eraseIdx {α : Type} :
    ∀ (l : List α) (n : Nat), n < l.length → (swapRemove l n).Perm (l.eraseIdx n)
  | [], n, h => by simp at h
  | [a], 0, _ => by simp [swapRemove]
  | [a], n + 1, h => by simp at h
  | a :: b :: t, 0, _ => by
    cases hl : (b :: t).getLast? with
    | none => simp [List.getLast?_eq_none_iff] at hl
    | some last =>
      have h1 : (last :: (b :: t).dropLast).Perm ((b :: t).dropLast ++ [last]) :=
        (List.perm_append_singleton _ _).symm
      have h2 : (b :: t).dropLast ++ [last] = b :: t :=
        List.dropLast_append_getLast? last hl
      simp only [swapRemove, List.getLast?_cons_cons, hl, List.set_cons_zero,
        List.dropLast_cons₂, List.eraseIdx_cons_zero]
      exact h1.trans (by rw [h2])
  | a :: b :: t, n + 1, h => by
    cases hl : (b :: t).getLast? with
    | none => simp [List.getLast?_eq_none_iff] at hl
    | some last =>
      have hn : n < (b :: t).length := by
        simpa [Nat.succ_lt_succ_iff] using h
      have hne : (b :: t).set n last ≠ [] := by
        intro hnil
        have hlen : ((b :: t).set n last).length = (b :: t).length :=
          List.length_set ..
        rw [hnil] at hlen
        simp at hlen
      have ih := swapRemove_perm_eraseIdx (b :: t) n hn
      simp only [swapRemove, hl] at ih
      simp only [swapRemove, List.getLast?_cons_cons, hl, List.set_cons_succ,
        List.dropLast_cons_of_ne_nil hne, List.eraseIdx_cons_succ]
      exact ih.cons a

theorem pollJobsFrom_ids_subperm {J : Type} (step : J → Option J) :
    ∀ (n : Nat) (l : List (J × PayloadId)),
      List.Subperm ((pollJobsFrom step n l).map Prod.snd) (l.map Prod.snd)
  | 0, l => List.Subperm.refl _
  | n + 1, l => by
    rw [pollJobsFrom]
    cases hget : l[n]? with
    | none => exact pollJobsFrom_ids_subperm step n l
    | some p =>
      obtain ⟨job, id⟩ := p
      dsimp only
      have hn : n < l.length := by
        by_contra hle
        rw [List.getElem?_eq_none (Nat.le_of_not_lt hle)] at hget
        cases hget
      have hswap := swapRemove_perm_eraseIdx l n hn
      have hcons : l.Perm ((job, id) :: l.eraseIdx n) :=
        get_cons_eraseIdx_perm l n _ hget
      cases hstep : step job with
      | none =>
        refine (pollJobsFrom_ids_subperm step n (swapRemove l n)).trans ?_
        have h1 : ((swapRemove l n).map Prod.snd).Perm
            ((l.eraseIdx n).map Prod.snd) := hswap.map _
        have h2 : List.Sublist ((l.eraseIdx n).map Prod.snd) (l.map Prod.snd) :=
          (List.eraseIdx_sublist l n).map _
        exact h1.subperm.trans h2.subperm
      | some job' =>
        refine (pollJobsFrom_ids_subperm step n
          (swapRemove l n ++ [(job', id)])).trans ?_
        have h1 : ((swapRemove l n ++ [(job', id)]).map Prod.snd).Perm
            (l.map Prod.snd) := by
          simp only [List.map_append, List.map_cons, List.map_nil]
          exact ((hswap.map Prod.snd).append_right _).trans
            ((List.perm_append_singleton _ _).trans ((hcons.map Prod.snd).symm))
        exact h1.subperm

theorem contains_iff_mem_ids {J : Type} (s : ServiceState J) (id : PayloadId) :
    containsPayload s id = true ↔ id ∈ s.payloadJobs.map Prod.snd := by
  simp only [containsPayload, List.any_eq_true, List.mem_map, decide_eq_true_eq]

theorem build_preserves_unique {J : Type} (gen : BuilderAttributes → Except Unit J)
    (s : ServiceState J) (attr : BuilderAttributes)
    (h : (s.payloadJobs.map Prod.snd).Nodup) :
    (((buildNewPayload gen s attr).2).payloadJobs.map Prod.snd).Nodup := by
  unfold buildNewPayload
  by_cases hc : containsPayload s attr.payloadId = true
  · rw [if_pos hc]
    exact h
  · rw [if_neg hc]
    cases hg : gen attr with
    | ok job =>
      have hperm : ((s.payloadJobs ++ [(job, attr.payloadId)]).map Prod.snd).Perm
          (attr.payloadId :: s.payloadJobs.map Prod.snd) := by
        simp only [List.map_append, List.map_cons, List.map_nil]
        exact List.perm_append_singleton _ _
      refine hperm.nodup_iff.mpr ?_
      rw [List.nodup_cons]
      refine ⟨fun hm => hc ((contains_iff_mem_ids s attr.payloadId).mpr hm), h⟩
    | error e => exact h

theorem poll_preserves_unique {J : Type} (step : J → Option J) (s : ServiceState J)
    (h : (s.payloadJobs.map Prod.snd).Nodup) :
    ((pollJobs step s).payloadJobs.map Prod.snd).Nodup := by
  obtain ⟨u, hperm, hsub⟩ :=
    pollJobsFrom_ids_subperm step s.payloadJobs.length s.payloadJobs
  exact hperm.nodup_iff.mp (List.Nodup.sublist hsub h)

theorem resolve_preserves_unique {J : Type} (keepAlive : J → Bool)
    (s : ServiceState J) (id : PayloadId)
    (h : (s.payloadJobs.map Prod.snd).Nodup) :
    ((resolveStep keepAlive s id).payloadJobs.map Prod.snd).Nodup := by
  unfold resolveStep
  cases hidx : s.payloadJobs.findIdx? (fun p => p.2 = id) with
  | none => exact h
  | some i =>
    dsimp only
    cases hget : s.payloadJobs[i]? with
    | none => exact h
    | some p =>
      obtain ⟨job, pid⟩ := p
      dsimp only
      by_cases hk : keepAlive job = true
      · rw [if_pos hk]
        exact h
      · rw [if_neg hk]
        exact List.Nodup.sublist ((List.eraseIdx_sublist s.payloadJobs i).map Prod.snd) h

theorem contains_build_noop {J : Type} (gen : BuilderAttributes → Except Unit J)
    (s : ServiceState J) (attr : BuilderAttributes)
    (hc : containsPayload s attr.payloadId = true) :
    buildNewPayload gen s attr = (Except.ok attr.payloadId, s) := by
  unfold buildNewPayload
  rw [if_pos hc]

/-- Claim C8: In every reachable service state, at most one job exists per
payload id (the id column of `payload_jobs` has no duplicates), and
submitting `BuildNewPayload` for attributes whose derived id already has
a job returns that same id without creating a second job or changing the
state in any way. -/
theorem payload_service_unique_jobs {J : Type} (s : ServiceState J)
    (h : Reachable s) :
    (s.payloadJobs.map Prod.snd).Nodup ∧
    ∀ (gen : BuilderAttributes → Except Unit J) (attr : BuilderAttributes),
      containsPayload s attr.payloadId = true →
      buildNewPayload gen s attr = (Except.ok attr.payloadId, s) := by
  refine ⟨?_, fun gen attr hc => contains_build_noop gen s attr hc⟩
  induction h with
  | init => simp [ServiceState.empty]
  | build gen attr hs ih => exact build_preserves_unique gen _ attr ih
  | poll step hs ih => exact poll_preserves_unique step _ ih
  | resolve keepAlive id hs ih => exact resolve_preserves_unique keepAlive _ id ih

/-- Witness for C8: the state holding the single job with id `[1]`
(reached by one `BuildNewPayload`) has unique ids, and re-submitting
attributes with id `[1]` returns `[1]` and leaves the state unchanged. -/
theorem payload_service_unique_jobs_witness :
    ((⟨[(((), [1]) : Unit × PayloadId)]⟩ : ServiceState Unit).payloadJobs.map
        Prod.snd).Nodup ∧
    ∀ (gen : BuilderAttributes → Except Unit Unit) (attr : BuilderAttributes),
      containsPayload (⟨[(((), [1]))]⟩ : ServiceState Unit) attr.payloadId = true →
      buildNewPayload gen ⟨[(((), [1]))]⟩ attr =
        (Except.ok attr.payloadId, ⟨[(((), [1]))]⟩) :=
  payload_service_unique_jobs (⟨[(((), [1]))]⟩ : ServiceState Unit)
    (Reachable.build (fun _ => .ok ()) ⟨[1], 0⟩ Reachable.init)

end Service

end RethVerify
